import Mathlib

/-!
Shallow embedding of `laravel-mix-s3-uploader.js` (the most recent variant of
the plugin: the one using `PutObjectCommand` / `s3.send`, a prefix-list
`excludes` option, and the `filesToUpload` asset collection), together with
theorems settling the specification claims about it.

JavaScript strings are modelled as Lean `String`; JS truthiness of the
optional option fields is modelled explicitly (`none` for `undefined`,
`some ""` for an empty string, which is falsy).
-/

namespace S3Uploader

/-- JS truthiness of a possibly-undefined string: `undefined` and `""` are
falsy, every other string is truthy. -/
def jsTruthyStr : Option String → Bool
  | none => false
  | some s => s ≠ ""

/-- JS truthiness of a possibly-undefined array: any array (even empty) is
truthy, `undefined` is falsy. -/
def jsTruthyList : Option (List String) → Bool
  | none => false
  | some _ => true

/-- JS truthiness of a possibly-undefined boolean. -/
def jsTruthyBool : Option Bool → Bool
  | none => false
  | some b => b

/-- `s.startsWith(pre)` on JS strings: prefix test. -/
def jsStartsWith (s pre : String) : Bool :=
  pre.data.isPrefixOf s.data

/-- `str.replace(/\\/g, '/')`: every backslash becomes a forward slash. -/
def normalizeSep (s : String) : String :=
  String.mk (s.data.map fun c => if c = '\\' then '/' else c)

/-- `asset.split('?')[0]`: everything up to (excluding) the first `?`. -/
def jsSplitQHead (s : String) : String :=
  String.mk (s.data.takeWhile fun c => c ≠ '?')

/-- `s.slice(n)` for a nonnegative index: drop the first `n` characters. -/
def jsSlice (s : String) (n : Nat) : String :=
  String.mk (s.data.drop n)

/-- `path.join(a, b)` for dot-free POSIX-style relative paths: join with a
single `/` separator. -/
def pathJoin (a b : String) : String :=
  a ++ "/" ++ b

/-- Drop one leading `/` from a character list, if present. -/
def dropLeadSlash : List Char → List Char
  | [] => []
  | c :: r => if c = '/' then r else c :: r

/-- Test whether a character list begins with two `/` characters. -/
def startsSlashSlash : List Char → Bool
  | a :: b :: _ => a = '/' && b = '/'
  | _ => false

/-- `str.replace(/^\/|\/$/g, '')` on the character list: the global regex
consumes the first character when it is `/` (the `^\/` alternative) and the
last remaining character when it is `/` (the `\/$` alternative), so the
result drops one leading slash and then one trailing slash of the
remainder.  The trailing drop is expressed as a leading drop on the
reversed list. -/
def removeSlashesL (l : List Char) : List Char :=
  (dropLeadSlash (dropLeadSlash l).reverse).reverse

/-- `removeSlashes` of the source: `str.replace(/^\/|\/$/g, '')`. -/
def removeSlashes (s : String) : String :=
  String.mk (removeSlashesL s.data)

/-- `isExcluded(filename)`: with a configured non-empty `excludes` list,
the filename is excluded when, after backslash normalization of both
sides, it starts with some exclude entry; otherwise not excluded. -/
def isExcluded (excludes : Option (List String)) (filename : String) : Bool :=
  match excludes with
  | some es =>
      if es.length > 0 then
        es.any fun e => jsStartsWith (normalizeSep filename) (normalizeSep e)
      else false
  | none => false

/-- `shouldUpload(filename)`: negation of `isExcluded`. -/
def shouldUpload (excludes : Option (List String)) (filename : String) : Bool :=
  !isExcluded excludes filename

/-- Rendering of a possibly-undefined string in JS string concatenation:
`undefined` prints as `"undefined"`. -/
def jsStr : Option String → String
  | none => "undefined"
  | some s => s

/-- Filesystem entry, as observed through `readdirSync` / `statSync`: a
plain file or a directory with an ordered listing. -/
inductive Entry where
  | file (name : String)
  | dir (name : String) (children : List Entry)

mutual
/-- Body of `getIncludes`'s `traverse` for one directory entry (`items.forEach`
callback): join and strip slashes, prune when the filter excludes the path,
recurse into directories, and for files strip `source.length + 1` characters
when the path starts with the configured `source`, re-filter, normalize
separators and emit.  `src` is the configured `this.source` (the claims only
exercise the configured-source case). -/
def travEntry (ex : Option (List String)) (src : String) (cur : String) :
    Entry → List String
  | .file name =>
      let itemPath := removeSlashes (pathJoin cur name)
      if shouldUpload ex itemPath then
        let stripped :=
          if jsStartsWith itemPath src then jsSlice itemPath (src.length + 1)
          else itemPath
        if shouldUpload ex stripped then [normalizeSep stripped] else []
      else []
  | .dir name children =>
      let itemPath := removeSlashes (pathJoin cur name)
      if shouldUpload ex itemPath then travList ex src itemPath children
      else []

/-- Fold of `travEntry` over a directory listing, in listing order. -/
def travList (ex : Option (List String)) (src : String) (cur : String) :
    List Entry → List String
  | [] => []
  | e :: rest => travEntry ex src cur e ++ travList ex src cur rest
end

/-- Model of `getIncludes(dirs)`: each root is a directory path together with
its listing; results of the depth-first walks are concatenated. -/
def getIncludes (ex : Option (List String)) (src : String)
    (roots : List (String × List Entry)) : List String :=
  (roots.map fun r => travList ex src r.1 r.2).flatten

mutual
/-- Walker written from the claim's words, for comparison with `travEntry`:
identical except that a file path is stripped only when the configured
source followed by a separator is a leading prefix of it, removing that
source prefix plus the following separator. -/
def specTravEntry (ex : Option (List String)) (src : String) (cur : String) :
    Entry → List String
  | .file name =>
      let itemPath := removeSlashes (pathJoin cur name)
      if shouldUpload ex itemPath then
        let stripped :=
          if jsStartsWith itemPath (src ++ "/") then
            jsSlice itemPath (src.length + 1)
          else itemPath
        if shouldUpload ex stripped then [normalizeSep stripped] else []
      else []
  | .dir name children =>
      let itemPath := removeSlashes (pathJoin cur name)
      if shouldUpload ex itemPath then specTravList ex src itemPath children
      else []

/-- Fold of `specTravEntry` over a directory listing. -/
def specTravList (ex : Option (List String)) (src : String) (cur : String) :
    List Entry → List String
  | [] => []
  | e :: rest => specTravEntry ex src cur e ++ specTravList ex src cur rest
end

/-- Walk of the claim-worded walker over the roots. -/
def specGetIncludes (ex : Option (List String)) (src : String)
    (roots : List (String × List Entry)) : List String :=
  (roots.map fun r => specTravList ex src r.1 r.2).flatten

/-- Uploader instance state after construction (`this.*` fields).  The
`pfx` field models `this.prefix`. -/
structure Uploader where
  bucket : Option String
  source : Option String
  pfx : Option String
  includes : Option (List String)
  excludes : Option (List String)
  sessionToken : Option String
  quiet : Bool
  acl : Option String
  cache : Option String
deriving DecidableEq

/-- Metadata of an S3 client response (`result.$metadata`); the status code
may be absent. -/
structure S3Response where
  httpStatusCode : Option Nat
deriving DecidableEq

/-- Outcome of `s3.send(new PutObjectCommand(params))`: either the client
throws an error with a name and a message, or it completes with a possibly
nullish result. -/
inductive SendOutcome where
  | thrown (name msg : String)
  | completed (result : Option S3Response)
deriving DecidableEq

/-- Successful send: the client completed with a non-nullish result whose
metadata carries HTTP status 200. -/
def sendOk : SendOutcome → Bool
  | .completed (some r) => decide (r.httpStatusCode = some 200)
  | _ => false

/-- Parameters of one `PutObjectCommand`. -/
structure PutParams where
  bucket : Option String
  key : String
  body : String
  acl : Option String
  cacheControl : Option String
  contentType : Option String
deriving DecidableEq

/-- Settled state of the promise returned by `upload`. -/
inductive UploadResult where
  | resolved
  | rejected (err : String)
deriving DecidableEq

/-- Model of `upload(filename, content)`: builds the PUT parameters (bucket,
key, body, optional ACL and cache-control, content type looked up from the
filename), then resolves exactly when the send completes with a non-nullish
result whose metadata carries HTTP status 200, rejecting otherwise; a thrown
client error is additionally logged to the error console.  Returns the PUT
parameters, the promise outcome, and the console-error lines. -/
def upload (mime : String → Option String) (u : Uploader)
    (outcome : SendOutcome) (filename content : String) :
    PutParams × UploadResult × List String :=
  let params : PutParams :=
    { bucket := u.bucket
      key := filename
      body := content
      acl := if jsTruthyStr u.acl then u.acl else none
      cacheControl := if jsTruthyStr u.cache then u.cache else none
      contentType := mime filename }
  match outcome with
  | .completed (some r) =>
      if r.httpStatusCode = some 200 then (params, .resolved, [])
      else
        (params,
         .rejected ("Error uploading " ++ filename ++ " to " ++ jsStr u.bucket
           ++ ": Unknown error"), [])
  | .completed none =>
      (params,
       .rejected ("Error uploading " ++ filename ++ " to " ++ jsStr u.bucket
         ++ ": Unknown error"), [])
  | .thrown n m =>
      let msg := "Error uploading " ++ filename ++ " to " ++ jsStr u.bucket
        ++ ": " ++ n ++ " - " ++ m
      (params, .rejected msg, [msg])

/-- Remote key resolution of the upload loop: `this.prefix` wins when truthy,
else `this.source` when truthy, else the bare filename. -/
def resolveRemotePath (pfx src : Option String) (filename : String) : String :=
  if jsTruthyStr pfx then jsStr pfx ++ "/" ++ filename
  else if jsTruthyStr src then jsStr src ++ "/" ++ filename
  else filename

/-- Remote key as the claim words it: with a configured prefix the key is
prefix + separator + filename regardless of the source; otherwise with a
configured source it is source + separator + filename; otherwise the bare
filename. -/
def specRemoteKey (pfx src : Option String) (filename : String) : String :=
  match pfx, src with
  | some p, _ =>
      if p ≠ "" then p ++ "/" ++ filename
      else if jsTruthyStr src then jsStr src ++ "/" ++ filename else filename
  | none, some s => if s ≠ "" then s ++ "/" ++ filename else filename
  | none, none => filename

/-- Signal delivered to the build-hook completion callback `cb`. -/
inductive Signal where
  | success
  | failure (err : String)
deriving DecidableEq

/-- One line of console output: `console.log` (via `this.log`, suppressed by
`quiet`) or `console.error`. -/
inductive ConsoleMsg where
  | out (s : String)
  | err (s : String)
deriving DecidableEq

/-- Observable trace of the afterEmit upload phase. -/
structure LoopOut where
  putCalls : List PutParams
  progress : List (Nat × String)
  signals : List Signal
  console : List ConsoleMsg
  barStopped : Bool
deriving DecidableEq

/-- Model of the afterEmit `for (const asset of this.filesToUpload)` loop,
starting at 0-based position `i` (the progress counter `c` is `i + 1`).
Per asset: strip the query suffix and the surrounding slashes, resolve the
local path and the remote key, await the PUT; on rejection record the
failure signal and halt (the bar is not stopped and nothing further is
attempted); on resolution record the progress update and continue.  After
the last asset the bar is stopped, `Finished!` is logged unless quiet, and
the success signal fires. -/
def loopAux (mime : String → Option String) (u : Uploader)
    (outputPath : String) (readFile : String → String)
    (outcomes : Nat → SendOutcome) : List String → Nat → LoopOut
  | [], _ =>
      { putCalls := [], progress := [], signals := [.success],
        console := if u.quiet then [] else [.out "Finished!"],
        barStopped := true }
  | asset :: rest, i =>
      let filename := removeSlashes (jsSplitQHead asset)
      let localPath := outputPath ++ "/" ++ filename
      let remotePath := resolveRemotePath u.pfx u.source filename
      let r := upload mime u (outcomes i) remotePath (readFile localPath)
      match r.2.1 with
      | .rejected e =>
          { putCalls := [r.1], progress := [], signals := [.failure e],
            console := r.2.2.map ConsoleMsg.err, barStopped := false }
      | .resolved =>
          let k := loopAux mime u outputPath readFile outcomes rest (i + 1)
          { putCalls := r.1 :: k.putCalls,
            progress := (i + 1, filename) :: k.progress,
            signals := k.signals,
            console := r.2.2.map ConsoleMsg.err ++ k.console,
            barStopped := k.barStopped }

/-- Model of the whole afterEmit hook: the `Uploading N assets` banner
(unless quiet), then the upload loop from position 0. -/
def afterEmitRun (mime : String → Option String) (u : Uploader)
    (outputPath : String) (readFile : String → String)
    (outcomes : Nat → SendOutcome) (assets : List String) : LoopOut :=
  let body := loopAux mime u outputPath readFile outcomes assets 0
  { body with
    console :=
      (if u.quiet then []
       else [.out ("\r\n\r\nUploading " ++ toString assets.length
         ++ " assets to \x27" ++ jsStr u.bucket ++ "\x27...")]) ++ body.console }

/-- View of the webpack compilation object as the emit hook reads it: the
code iterates the keys of `compilation.filesToUpload` (a field that is
absent on real webpack compilations, modelled as `none`), while the names
of the assets actually emitted by the build step live in
`compilation.assets`. -/
structure Compilation where
  filesToUpload : Option (List String)
  assets : List String
deriving DecidableEq

/-- Model of the emit hook: filter the keys of `compilation.filesToUpload`
through `shouldUpload` (iterating `undefined` yields nothing), then, when
`includes` is configured, append the walked include directories. -/
def emitHook (ex : Option (List String)) (includes : Option (List String))
    (src : String) (comp : Compilation)
    (fsRoots : List (String × List Entry)) : List String :=
  let collected := (comp.filesToUpload.getD []).filter (shouldUpload ex)
  if includes.isSome then collected ++ getIncludes ex src fsRoots
  else collected

/-- Parameters of one `deleteObjects` call. -/
structure DeleteParams where
  bucket : Option String
  objects : List String
  quietDelete : Bool
deriving DecidableEq

/-- Outcome of the batch delete as observed inside `removePaths`'s
`try`/`catch`. -/
inductive DeleteOutcome where
  | ok
  | err (msg : String)
deriving DecidableEq

/-- Model of `removePaths(paths)`: build one batch-delete request over all
the keys with `Quiet: false`, issue it, and catch any error, logging it to
the error console; the function always returns normally. -/
def removePaths (bucket : Option String) (outcome : DeleteOutcome)
    (paths : List String) : List DeleteParams × List ConsoleMsg :=
  let params : DeleteParams := ⟨bucket, paths, false⟩
  match outcome with
  | .ok => ([params], [])
  | .err m => ([params], [.err ("Error deleting objects: " ++ m)])

/-- Constructor options bag. -/
structure Options where
  key : Option String
  secret : Option String
  bucket : Option String
  region : Option String
  endpoint : Option String
  sessionToken : Option String
  source : Option String
  pfx : Option String
  acl : Option String
  cache : Option String
  includes : Option (List String)
  excludes : Option (List String)
  remove : Option (List String)
  quiet : Option Bool
deriving DecidableEq

/-- Result of running the constructor: the instance state, the mutated
`options.region`, whether the S3 client was configured, and the delete
calls and console output of the fire-and-forget `removePaths`. -/
structure ConstructResult where
  uploader : Uploader
  effRegion : Option String
  s3Configured : Bool
  deleteCalls : List DeleteParams
  console : List ConsoleMsg
deriving DecidableEq

/-- Model of the `LaravelMixS3Uploader(options)` constructor: default the
region to `us-east-1` whenever falsy, strip slashes off truthy `source` and
`prefix`, copy the truthy option fields, configure the client when key,
secret and (region or endpoint) are truthy, and fire `removePaths` when a
`remove` list is supplied (its outcome never affects the rest). -/
def construct (opts : Options) (deleteOutcome : DeleteOutcome) :
    ConstructResult :=
  let effRegion := if jsTruthyStr opts.region then opts.region
                   else some "us-east-1"
  let source := if jsTruthyStr opts.source
                then some (removeSlashes (jsStr opts.source)) else none
  let pfx := if jsTruthyStr opts.pfx
             then some (removeSlashes (jsStr opts.pfx)) else none
  let includes := if jsTruthyList opts.includes then opts.includes else none
  let excludes := if jsTruthyList opts.excludes then opts.excludes else none
  let tok := if jsTruthyStr opts.sessionToken then opts.sessionToken else none
  let quiet := jsTruthyBool opts.quiet
  let s3c := jsTruthyStr opts.key && jsTruthyStr opts.secret
    && (jsTruthyStr effRegion || jsTruthyStr opts.endpoint)
  let del := if jsTruthyList opts.remove
             then removePaths opts.bucket deleteOutcome (opts.remove.getD [])
             else ([], [])
  let acl := if jsTruthyStr opts.acl then opts.acl else none
  let cache := if jsTruthyStr opts.cache then opts.cache else none
  { uploader :=
      ⟨opts.bucket, source, pfx, includes, excludes, tok, quiet, acl, cache⟩,
    effRegion := effRegion, s3Configured := s3c,
    deleteCalls := del.1, console := del.2 }

example : removeSlashes "/abc/" = "abc" := by decide
example : removeSlashes "//x//" = "/x/" := by decide
example : removeSlashes "/x/" = "x" := by decide
example : removeSlashes "///" = "/" := by decide
example : removeSlashes "//" = "" := by decide
example : shouldUpload (some ["vendor"]) "vendor/app.js" = false := by decide
example : shouldUpload (some ["vendor"]) "js/app.js" = true := by decide
example : shouldUpload none "anything" = true := by decide
example : shouldUpload (some []) "anything" = true := by decide
example : shouldUpload (some ["a\\b"]) "a/b/c" = false := by decide

/-! Helper lemmas shared by several claim proofs. -/

lemma upload_key (mime : String → Option String) (u : Uploader)
    (o : SendOutcome) (f c : String) : (upload mime u o f c).1.key = f := by
  cases o with
  | thrown n m => rfl
  | completed res =>
    cases res with
    | none => rfl
    | some r => by_cases h : r.httpStatusCode = some 200 <;> simp [upload, h]

lemma upload_resolved_iff (mime : String → Option String) (u : Uploader)
    (o : SendOutcome) (f c : String) :
    (upload mime u o f c).2.1 = UploadResult.resolved ↔ sendOk o = true := by
  cases o with
  | thrown n m => simp [upload, sendOk]
  | completed res =>
    cases res with
    | none => simp [upload, sendOk]
    | some r =>
      by_cases h : r.httpStatusCode = some 200 <;> simp [upload, sendOk, h]

/-- C2: for every PUT issued by the upload operation, the result is a success
(resolved promise) if and only if the client completed with a response whose
metadata carries HTTP status 200; any other status value (including an absent
one or a nullish result), and any thrown client error, yields a rejected
result. -/
theorem c2_upload_success_iff_status200 (mime : String → Option String)
    (u : Uploader) (outcome : SendOutcome) (filename content : String) :
    (upload mime u outcome filename content).2.1 = UploadResult.resolved ↔
      ∃ r : S3Response, outcome = SendOutcome.completed (some r) ∧
        r.httpStatusCode = some 200 := by
  cases outcome with
  | thrown n m => simp [upload]
  | completed res =>
    cases res with
    | none => simp [upload]
    | some r =>
      by_cases h : r.httpStatusCode = some 200 <;> simp [upload, h]

/-- C3: `shouldUpload p` is true exactly when no configured exclude entry is
a leading prefix of the path after backslash normalization of both sides;
with an absent or empty exclude list every path is uploadable. -/
theorem c3_shouldUpload_iff_no_exclude (E : Option (List String)) (p : String) :
    (shouldUpload E p = true ↔
      ¬ ∃ e ∈ E.getD [],
        jsStartsWith (normalizeSep p) (normalizeSep e) = true) ∧
    shouldUpload none p = true ∧ shouldUpload (some []) p = true := by
  refine ⟨?_, rfl, rfl⟩
  cases E with
  | none => simp [shouldUpload, isExcluded]
  | some es =>
    cases es with
    | nil => simp [shouldUpload, isExcluded]
    | cons a t => simp [shouldUpload, isExcluded, List.any_eq_true]

/-- C4: the remote key computed by the upload loop coincides with the claim's
description: a configured (truthy) prefix wins regardless of the source, a
configured source is the fallback, and otherwise the key is the bare
filename. -/
theorem c4_remote_key_resolution (pfx src : Option String) (f : String) :
    resolveRemotePath pfx src f = specRemoteKey pfx src f := by
  cases pfx with
  | none =>
    cases src with
    | none => rfl
    | some s =>
      by_cases hs : s = "" <;>
        simp [resolveRemotePath, specRemoteKey, jsTruthyStr, jsStr, hs]
  | some p =>
    cases src with
    | none =>
      by_cases hp : p = "" <;>
        simp [resolveRemotePath, specRemoteKey, jsTruthyStr, jsStr, hp]
    | some s =>
      by_cases hp : p = "" <;> by_cases hs : s = "" <;>
        simp [resolveRemotePath, specRemoteKey, jsTruthyStr, jsStr, hp, hs]

/-- C7 counterexample: with `region` absent and an explicit `endpoint`
supplied, the constructor still defaults the region to `us-east-1`,
contradicting the claim that an absent region is not defaulted when an
endpoint is present. -/
theorem c7_counterexample :
    (construct
      { key := none, secret := none, bucket := some "b", region := none,
        endpoint := some "https://ep.example", sessionToken := none,
        source := none, pfx := none, acl := none, cache := none,
        includes := none, excludes := none, remove := none, quiet := none }
      DeleteOutcome.ok).effRegion = some "us-east-1" ∧
    jsTruthyStr (some "https://ep.example") = true := by decide

/-- C7 (amended): the constructor defaults an absent (falsy) region to the
fixed identifier `us-east-1` unconditionally — whether or not an endpoint is
supplied — and leaves a truthy region unchanged. -/
theorem c7_region_default_amended (opts : Options) (outcome : DeleteOutcome) :
    (jsTruthyStr opts.region = false →
      (construct opts outcome).effRegion = some "us-east-1") ∧
    (jsTruthyStr opts.region = true →
      (construct opts outcome).effRegion = opts.region) := by
  constructor <;> intro h <;> simp [construct, h]

/-- C7 witness: instantiating the amended theorem at the counterexample's
configuration. -/
theorem c7_region_default_amended_witness :
    jsTruthyStr (none : Option String) = false ∧
    (construct
      { key := none, secret := none, bucket := some "b", region := none,
        endpoint := some "https://ep.example", sessionToken := none,
        source := none, pfx := none, acl := none, cache := none,
        includes := none, excludes := none, remove := none, quiet := none }
      DeleteOutcome.ok).effRegion = some "us-east-1" :=
  ⟨rfl,
   (c7_region_default_amended
      { key := none, secret := none, bucket := some "b", region := none,
        endpoint := some "https://ep.example", sessionToken := none,
        source := none, pfx := none, acl := none, cache := none,
        includes := none, excludes := none, remove := none, quiet := none }
      DeleteOutcome.ok).1 rfl⟩

/-- C9: with a configured remove list, construction issues exactly one
batch-delete call carrying those keys (with `Quiet: false`), the rest of the
constructed state never depends on the delete's outcome, and a delete error
is only logged to the error console. -/
theorem c9_remove_best_effort (opts : Options) (ks : List String)
    (outcome : DeleteOutcome) (h : opts.remove = some ks) :
    (construct opts outcome).deleteCalls = [⟨opts.bucket, ks, false⟩] ∧
    (construct opts outcome).uploader = (construct opts .ok).uploader ∧
    (construct opts outcome).effRegion = (construct opts .ok).effRegion ∧
    (construct opts outcome).s3Configured
      = (construct opts .ok).s3Configured ∧
    (∀ m, outcome = .err m →
      (construct opts outcome).console
        = [.err ("Error deleting objects: " ++ m)]) := by
  cases outcome with
  | ok => simp [construct, h, removePaths, jsTruthyList]
  | err m => simp [construct, h, removePaths, jsTruthyList]

/-- C9 witness: a configuration with `remove := ["old/a.js"]` and a rejected
delete still produces exactly one batch-delete call and only an error log. -/
theorem c9_remove_best_effort_witness :
    (construct
      { key := none, secret := none, bucket := some "b", region := none,
        endpoint := none, sessionToken := none, source := none, pfx := none,
        acl := none, cache := none, includes := none, excludes := none,
        remove := some ["old/a.js"], quiet := none }
      (DeleteOutcome.err "boom")).deleteCalls
      = [⟨some "b", ["old/a.js"], false⟩] ∧
    (construct
      { key := none, secret := none, bucket := some "b", region := none,
        endpoint := none, sessionToken := none, source := none, pfx := none,
        acl := none, cache := none, includes := none, excludes := none,
        remove := some ["old/a.js"], quiet := none }
      (DeleteOutcome.err "boom")).console
      = [.err ("Error deleting objects: " ++ "boom")] :=
  ⟨(c9_remove_best_effort _ ["old/a.js"] (DeleteOutcome.err "boom") rfl).1,
   (c9_remove_best_effort _ ["old/a.js"] (DeleteOutcome.err "boom") rfl).2.2.2.2
      "boom" rfl⟩

/-! Lemmas about `dropLeadSlash` for the `removeSlashes` claims. -/

lemma dropLeadSlash_cases (l : List Char) :
    dropLeadSlash l = l ∨ l = '/' :: dropLeadSlash l := by
  cases l with
  | nil => exact Or.inl rfl
  | cons c r =>
    by_cases hc : c = '/'
    · subst hc; right; simp [dropLeadSlash]
    · left; simp [dropLeadSlash, hc]

lemma dropLeadSlash_head (l : List Char) (h : startsSlashSlash l = false) :
    (dropLeadSlash l).head? ≠ some '/' := by
  cases l with
  | nil => simp [dropLeadSlash]
  | cons c r =>
    by_cases hc : c = '/'
    · subst hc
      cases r with
      | nil => simp [dropLeadSlash]
      | cons b r' =>
        have hb : b ≠ '/' := by
          intro hb; subst hb; simp [startsSlashSlash] at h
        simp [dropLeadSlash, hb]
    · simp [dropLeadSlash, hc]

lemma dropLeadSlash_id (l : List Char) (h : l.head? ≠ some '/') :
    dropLeadSlash l = l := by
  cases l with
  | nil => rfl
  | cons c r =>
    have hc : c ≠ '/' := fun hc => h (by simp [hc])
    simp [dropLeadSlash, hc]

lemma startsSlashSlash_append_single (m : List Char) (c : Char)
    (h : startsSlashSlash (m ++ [c]) = false) : startsSlashSlash m = false := by
  cases m with
  | nil => rfl
  | cons a m' =>
    cases m' with
    | nil => rfl
    | cons b m'' => simpa [startsSlashSlash] using h

lemma removeSlashesL_fix (r : List Char) (h1 : r.head? ≠ some '/')
    (h2 : r.reverse.head? ≠ some '/') : removeSlashesL r = r := by
  unfold removeSlashesL
  rw [dropLeadSlash_id r h1, dropLeadSlash_id r.reverse h2,
    List.reverse_reverse]

lemma removeTrail_cases (t : List Char) :
    (dropLeadSlash t.reverse).reverse = t ∨
    t = (dropLeadSlash t.reverse).reverse ++ ['/'] := by
  rcases dropLeadSlash_cases t.reverse with hB | hB
  · left; rw [hB, List.reverse_reverse]
  · right
    have h := congrArg List.reverse hB
    rwa [List.reverse_reverse, List.reverse_cons] at h

lemma removeSlashesL_strips (l : List Char) :
    l = removeSlashesL l ∨ l = '/' :: removeSlashesL l ∨
    l = removeSlashesL l ++ ['/'] ∨
    l = '/' :: (removeSlashesL l ++ ['/']) := by
  have hA := dropLeadSlash_cases l
  have hB := removeTrail_cases (dropLeadSlash l)
  unfold removeSlashesL
  rcases hB with hB | hB
  · rw [hB]
    rcases hA with hA | hA
    · rw [hA]; exact Or.inl rfl
    · exact Or.inr (Or.inl hA)
  · rcases hA with hA | hA
    · exact Or.inr (Or.inr (Or.inl (hA.symm.trans hB)))
    · exact Or.inr (Or.inr (Or.inr
        (hA.trans (congrArg (List.cons '/') hB))))

lemma removeSlashesL_head (l : List Char)
    (h1 : startsSlashSlash l = false) :
    (removeSlashesL l).head? ≠ some '/' := by
  have ht_head : (dropLeadSlash l).head? ≠ some '/' := dropLeadSlash_head l h1
  have hB := removeTrail_cases (dropLeadSlash l)
  unfold removeSlashesL
  rcases hB with hB | hB
  · rw [hB]; exact ht_head
  · intro hcon
    apply ht_head
    rw [hB]
    cases hre : (dropLeadSlash (dropLeadSlash l).reverse).reverse with
    | nil => rw [hre] at hcon; simp at hcon
    | cons x xs =>
      rw [hre] at hcon
      simp only [List.head?_cons, Option.some.injEq] at hcon
      simp [hcon]

lemma removeSlashesL_revhead (l : List Char)
    (h2 : startsSlashSlash l.reverse = false) :
    (removeSlashesL l).reverse.head? ≠ some '/' := by
  have htrev : startsSlashSlash (dropLeadSlash l).reverse = false := by
    rcases dropLeadSlash_cases l with hA | hA
    · rw [hA]; exact h2
    · apply startsSlashSlash_append_single (dropLeadSlash l).reverse '/'
      rw [← List.reverse_cons, ← hA]
      exact h2
  unfold removeSlashesL
  rw [List.reverse_reverse]
  exact dropLeadSlash_head (dropLeadSlash l).reverse htrev

/-- C8 counterexample: `removeSlashes` is not idempotent — on `"//x//"` one
application yields `"/x/"` and a second application yields `"x"`. -/
theorem c8_counterexample :
    removeSlashes (removeSlashes "//x//") ≠ removeSlashes "//x//" ∧
    removeSlashes "//x//" = "/x/" ∧ removeSlashes "/x/" = "x" := by decide

/-- C8 (amended): `removeSlashes` strips at most one leading and at most one
trailing separator from every string, and it is idempotent on every string
that does not begin and does not end with two separators (idempotence fails
in general, e.g. on `"//x//"`). -/
theorem c8_removeSlashes_amended :
    (∀ l : List Char,
      l = removeSlashesL l ∨ l = '/' :: removeSlashesL l ∨
      l = removeSlashesL l ++ ['/'] ∨
      l = '/' :: (removeSlashesL l ++ ['/'])) ∧
    (∀ s : String, startsSlashSlash s.data = false →
      startsSlashSlash s.data.reverse = false →
      removeSlashes (removeSlashes s) = removeSlashes s) := by
  refine ⟨removeSlashesL_strips, fun s h1 h2 => ?_⟩
  show String.mk (removeSlashesL (removeSlashesL s.data))
      = String.mk (removeSlashesL s.data)
  rw [removeSlashesL_fix (removeSlashesL s.data)
    (removeSlashesL_head s.data h1) (removeSlashesL_revhead s.data h2)]

/-- C8 witness: the amended idempotence applied to `"/a/"`, whose ends do not
carry double separators. -/
theorem c8_removeSlashes_amended_witness :
    removeSlashes (removeSlashes "/a/") = removeSlashes "/a/" ∧
    startsSlashSlash "/a/".data = false ∧
    startsSlashSlash "/a/".data.reverse = false :=
  ⟨c8_removeSlashes_amended.2 "/a/" (by decide) (by decide),
   by decide, by decide⟩

/-! The fail-fast upload loop. -/

lemma upload_rejected_of_not_ok (mime : String → Option String) (u : Uploader)
    (o : SendOutcome) (f c : String) (h : sendOk o = false) :
    ∃ e, (upload mime u o f c).2.1 = UploadResult.rejected e := by
  cases hres : (upload mime u o f c).2.1 with
  | resolved =>
    have := (upload_resolved_iff mime u o f c).mp hres
    rw [h] at this
    exact absurd this (by simp)
  | rejected e => exact ⟨e, rfl⟩

lemma loopAux_fail (mime : String → Option String) (u : Uploader)
    (oP : String) (rF : String → String) (outcomes : Nat → SendOutcome) :
    ∀ (assets : List String) (k i : Nat),
      i < assets.length →
      (∀ j, j < i → sendOk (outcomes (k + j)) = true) →
      sendOk (outcomes (k + i)) = false →
      (loopAux mime u oP rF outcomes assets k).putCalls.length = i + 1 ∧
      (loopAux mime u oP rF outcomes assets k).progress.length = i ∧
      ∃ e, (loopAux mime u oP rF outcomes assets k).signals
        = [Signal.failure e] := by
  intro assets
  induction assets with
  | nil => intro k i h1 _ _; exact absurd h1 (by simp)
  | cons a rest ih =>
    intro k i h1 h2 h3
    cases i with
    | zero =>
      have h3' : sendOk (outcomes k) = false := by simpa using h3
      obtain ⟨e, he⟩ := upload_rejected_of_not_ok mime u (outcomes k)
        (resolveRemotePath u.pfx u.source (removeSlashes (jsSplitQHead a)))
        (rF (oP ++ "/" ++ removeSlashes (jsSplitQHead a))) h3'
      refine ⟨?_, ?_, e, ?_⟩ <;> simp [loopAux, he]
    | succ i' =>
      have hok : sendOk (outcomes k) = true := by
        simpa using h2 0 (Nat.succ_pos i')
      have hres : (upload mime u (outcomes k)
          (resolveRemotePath u.pfx u.source (removeSlashes (jsSplitQHead a)))
          (rF (oP ++ "/" ++ removeSlashes (jsSplitQHead a)))).2.1
          = UploadResult.resolved :=
        (upload_resolved_iff mime u (outcomes k) _ _).mpr hok
      have ih' := ih (k + 1) i' (by simpa using Nat.lt_of_succ_lt_succ h1)
        (fun j hj => by
          have hx := h2 (j + 1) (Nat.succ_lt_succ hj)
          have : k + (j + 1) = k + 1 + j := by omega
          rwa [this] at hx)
        (by
          have : k + (i' + 1) = k + 1 + i' := by omega
          rwa [this] at h3)
      obtain ⟨e, he⟩ := ih'.2.2
      refine ⟨?_, ?_, e, ?_⟩ <;> simp [loopAux, hres, ih'.1, ih'.2.1, he]

/-- C1: fail-fast upload loop — for every upload set, if the PUTs at
positions `j < i` (0-based) succeed and the PUT at position `i` fails
(non-200 status, nullish result, or thrown client error), then exactly
`i + 1` uploads are attempted (none after the failing one), exactly `i`
files are recorded as uploaded successfully, and the build-hook callback
receives exactly one signal, a failure. -/
theorem c1_fail_fast (mime : String → Option String) (u : Uploader)
    (oP : String) (rF : String → String) (outcomes : Nat → SendOutcome)
    (assets : List String) (i : Nat)
    (h1 : i < assets.length)
    (h2 : ∀ j, j < i → sendOk (outcomes j) = true)
    (h3 : sendOk (outcomes i) = false) :
    (afterEmitRun mime u oP rF outcomes assets).putCalls.length = i + 1 ∧
    (afterEmitRun mime u oP rF outcomes assets).progress.length = i ∧
    ∃ e, (afterEmitRun mime u oP rF outcomes assets).signals
      = [Signal.failure e] := by
  have h := loopAux_fail mime u oP rF outcomes assets 0 i h1
    (fun j hj => by simpa using h2 j hj) (by simpa using h3)
  simpa [afterEmitRun] using h

/-- C1 witness: three files where the second PUT returns HTTP 500 — two PUTs
attempted, one success recorded, and a single failure signal fired. -/
theorem c1_fail_fast_witness :
    (afterEmitRun (fun _ => none)
      ⟨some "b", none, none, none, none, none, false, none, none⟩
      "dist" (fun _ => "data")
      (fun i => if i = 1 then SendOutcome.completed (some ⟨some 500⟩)
                else SendOutcome.completed (some ⟨some 200⟩))
      ["a.js", "b.js", "c.js"]).putCalls.length = 2 ∧
    (afterEmitRun (fun _ => none)
      ⟨some "b", none, none, none, none, none, false, none, none⟩
      "dist" (fun _ => "data")
      (fun i => if i = 1 then SendOutcome.completed (some ⟨some 500⟩)
                else SendOutcome.completed (some ⟨some 200⟩))
      ["a.js", "b.js", "c.js"]).progress.length = 1 ∧
    ∃ e, (afterEmitRun (fun _ => none)
      ⟨some "b", none, none, none, none, none, false, none, none⟩
      "dist" (fun _ => "data")
      (fun i => if i = 1 then SendOutcome.completed (some ⟨some 500⟩)
                else SendOutcome.completed (some ⟨some 200⟩))
      ["a.js", "b.js", "c.js"]).signals = [Signal.failure e] :=
  c1_fail_fast (fun _ => none)
    ⟨some "b", none, none, none, none, none, false, none, none⟩
    "dist" (fun _ => "data")
    (fun i => if i = 1 then SendOutcome.completed (some ⟨some 500⟩)
              else SendOutcome.completed (some ⟨some 200⟩))
    ["a.js", "b.js", "c.js"] 1 (by decide) (by decide) (by decide)

/-- C5 counterexample: with `source = "a"` and a root directory `ab`
containing the file `x`, the walker emits `"/x"` — it slices
`source.length + 1` characters off `"ab/x"` although the character after
the source is `b`, not a separator — while the claim's walker (strip the
source prefix plus the following separator) would emit `"ab/x"`. -/
theorem c5_counterexample :
    getIncludes none "a" [("ab", [.file "x"])] = ["/x"] ∧
    specGetIncludes none "a" [("ab", [.file "x"])] = ["ab/x"] ∧
    getIncludes none "a" [("ab", [.file "x"])]
      ≠ specGetIncludes none "a" [("ab", [.file "x"])] := by decide

/-- C5 (amended): the walker is depth-first; it prunes every entry —
directory or file — whose slash-stripped joined path the filter excludes;
for a non-excluded file whose path starts with the configured source string
it strips the first `source.length + 1` characters unconditionally (the
character after the source is stripped whether or not it is a separator),
re-applies the filter and appends the separator-normalized path; the
`a/x.txt`, `a/b/y.txt` example with `source = "a"` yields exactly `x.txt`
and `b/y.txt`. -/
theorem c5_getIncludes_amended :
    (getIncludes none "a" [("a", [.file "x.txt", .dir "b" [.file "y.txt"]])]
      = ["x.txt", "b/y.txt"]) ∧
    (∀ ex src cur name children,
      shouldUpload ex (removeSlashes (pathJoin cur name)) = false →
      travEntry ex src cur (.dir name children) = [] ∧
      travEntry ex src cur (.file name) = []) ∧
    (∀ ex src cur name,
      shouldUpload ex (removeSlashes (pathJoin cur name)) = true →
      travEntry ex src cur (.file name)
        = (if shouldUpload ex
              (if jsStartsWith (removeSlashes (pathJoin cur name)) src
               then jsSlice (removeSlashes (pathJoin cur name)) (src.length + 1)
               else removeSlashes (pathJoin cur name))
           then [normalizeSep
              (if jsStartsWith (removeSlashes (pathJoin cur name)) src
               then jsSlice (removeSlashes (pathJoin cur name)) (src.length + 1)
               else removeSlashes (pathJoin cur name))]
           else [])) := by
  refine ⟨by decide, ?_, ?_⟩
  · intro ex src cur name children h
    constructor <;> simp [travEntry, h]
  · intro ex src cur name h
    simp [travEntry, h]

/-- C5 witness: an excluded directory is pruned — its subtree contributes
nothing. -/
theorem c5_getIncludes_amended_witness :
    shouldUpload (some ["a/b"]) (removeSlashes (pathJoin "a" "b")) = false ∧
    travEntry (some ["a/b"]) "a" "a" (.dir "b" [.file "y.txt"]) = [] :=
  ⟨by decide,
   (c5_getIncludes_amended.2.1 (some ["a/b"]) "a" "a" "b" [.file "y.txt"]
      (by decide)).1⟩

/-- C6 (code-bug evidence): the emit hook iterates
`compilation.filesToUpload`, a field that is absent on real webpack
compilations, so with an emitted asset `app.js` (which passes the filter)
the collected upload set is empty instead of containing `app.js`. -/
theorem c6_emit_reads_wrong_field :
    emitHook none none "" ⟨none, ["app.js"]⟩ [] = [] ∧
    ["app.js"].filter (shouldUpload none) = ["app.js"] := by decide

/-! Console-output lemmas for the quiet-flag claim. -/

lemma removePaths_console_err (bucket : Option String)
    (outcome : DeleteOutcome) (paths : List String) :
    ∀ m ∈ (removePaths bucket outcome paths).2, ∃ s, m = ConsoleMsg.err s := by
  intro m hm
  cases outcome with
  | ok => simp [removePaths] at hm
  | err e =>
    simp [removePaths] at hm
    exact ⟨_, hm⟩

lemma loopAux_console_err (mime : String → Option String) (u : Uploader)
    (oP : String) (rF : String → String) (outcomes : Nat → SendOutcome)
    (hq : u.quiet = true) :
    ∀ (assets : List String) (i : Nat),
      ∀ m ∈ (loopAux mime u oP rF outcomes assets i).console,
        ∃ s, m = ConsoleMsg.err s := by
  intro assets
  induction assets with
  | nil => intro i m hm; simp [loopAux, hq] at hm
  | cons a rest ih =>
    intro i m hm
    cases hres : (upload mime u (outcomes i)
        (resolveRemotePath u.pfx u.source (removeSlashes (jsSplitQHead a)))
        (rF (oP ++ "/" ++ removeSlashes (jsSplitQHead a)))).2.1 with
    | rejected e =>
      simp [loopAux, hres] at hm
      obtain ⟨s, _, rfl⟩ := hm
      exact ⟨s, rfl⟩
    | resolved =>
      simp [loopAux, hres] at hm
      rcases hm with ⟨s, _, rfl⟩ | hm
      · exact ⟨s, rfl⟩
      · exact ih (i + 1) m hm

/-- C10 counterexample: with the quiet flag set, a thrown client error during
the upload phase still produces console output (via `console.error`), so not
all console output is suppressed. -/
theorem c10_counterexample :
    (afterEmitRun (fun _ => none)
      ⟨some "b", none, none, none, none, none, true, none, none⟩
      "dist" (fun _ => "data")
      (fun _ => SendOutcome.thrown "AccessDenied" "nope") ["a.js"]).console
      = [ConsoleMsg.err "Error uploading a.js to b: AccessDenied - nope"] ∧
    (afterEmitRun (fun _ => none)
      ⟨some "b", none, none, none, none, none, true, none, none⟩
      "dist" (fun _ => "data")
      (fun _ => SendOutcome.thrown "AccessDenied" "nope") ["a.js"]).console
      ≠ [] := by decide

/-- C10 (amended): the quiet flag suppresses exactly the `console.log`
channel (the banner and `Finished!`, routed through `this.log`): with quiet
set, every console line produced during construction, the upload phase, and
deletion is a `console.error` line; error output is not suppressed. -/
theorem c10_quiet_amended :
    (∀ opts outcome, jsTruthyBool opts.quiet = true →
      ∀ m ∈ (construct opts outcome).console, ∃ s, m = ConsoleMsg.err s) ∧
    (∀ (mime : String → Option String) (u : Uploader) oP rF outcomes assets,
      u.quiet = true →
      ∀ m ∈ (afterEmitRun mime u oP rF outcomes assets).console,
        ∃ s, m = ConsoleMsg.err s) ∧
    (∀ bucket outcome paths,
      ∀ m ∈ (removePaths bucket outcome paths).2,
        ∃ s, m = ConsoleMsg.err s) := by
  refine ⟨?_, ?_, removePaths_console_err⟩
  · intro opts outcome _ m hm
    by_cases hrem : jsTruthyList opts.remove = true
    · simp [construct, hrem] at hm
      exact removePaths_console_err opts.bucket outcome (opts.remove.getD []) m hm
    · simp [construct, hrem] at hm
  · intro mime u oP rF outcomes assets hq m hm
    simp [afterEmitRun, hq] at hm
    exact loopAux_console_err mime u oP rF outcomes hq assets 0 m hm

/-- C10 witness: the amended theorem applied to a quiet uploader whose single
PUT throws — the one console line it produces is on the error channel. -/
theorem c10_quiet_amended_witness :
    ∃ s, ConsoleMsg.err "Error uploading a.js to b: AccessDenied - nope"
      = ConsoleMsg.err s :=
  c10_quiet_amended.2.1 (fun _ => none)
    ⟨some "b", none, none, none, none, none, true, none, none⟩
    "dist" (fun _ => "data")
    (fun _ => SendOutcome.thrown "AccessDenied" "nope") ["a.js"] rfl
    (ConsoleMsg.err "Error uploading a.js to b: AccessDenied - nope")
    (by decide)

end S3Uploader
